import Mathlib

/-!
# Verification of the perfect-chords note-generation core

A shallow embedding of the playback state machine of the perfect-chords
plugin (`src/lib.rs`): the scale catalog (`get_scale_map`), the default
key-mapping generator (`generate_default_key_mappings`), the editor's
keyboard trigger handler, and the `process` event loop of `PerfectChords`.
Rust `HashMap`s are modelled as association lists, machine integers as
`Nat`/`Int` with explicit wrapping where the source wraps, and fallible
lookups as `Option`.
-/

namespace PerfectChords

/-- Association-list lookup, modelling `HashMap::get`. -/
def lookupA {α β : Type} [DecidableEq α] : List (α × β) → α → Option β
  | [], _ => none
  | p :: ps, k => if p.1 = k then some p.2 else lookupA ps k

/-- Association-list insert, modelling `HashMap::insert` (replaces an
existing binding for the key, otherwise appends). -/
def insertA {α β : Type} [DecidableEq α] : List (α × β) → α → β → List (α × β)
  | [], k, v => [(k, v)]
  | p :: ps, k, v => if p.1 = k then (k, v) :: ps else p :: insertA ps k v

/-- The chromatic note names, from `get_scale_map` in `src/lib.rs`
(the twelve entries of the `notes` array, in order). -/
def noteNames : List String :=
  ["C", "C#", "D", "D#", "E", "F"] ++ ["F#", "G", "G#", "A", "A#", "B"]

/-- Major scale degree offsets (`major_pattern`). -/
def majorPattern : List Nat := [0, 2, 4, 5, 7, 9, 11]

/-- Minor scale degree offsets (`minor_pattern`). -/
def minorPattern : List Nat := [0, 2, 3, 5, 7, 8, 10]

/-- Major scale degree chord qualities (`major_chord_types`). -/
def majorChordTypes : List String := ["maj", "m", "m", "maj", "maj", "m", "dim"]

/-- Minor scale degree chord qualities (`minor_chord_types`). -/
def minorChordTypes : List String := ["m", "dim", "maj", "m", "m", "maj", "maj"]

/-- Major scale degree labels (`major_degrees`). -/
def majorDegrees : List String := ["I", "ii", "iii", "IV", "V", "vi", "vii°"]

/-- Minor scale degree labels (`minor_degrees`). -/
def minorDegrees : List String := ["i", "ii°", "III", "iv", "v", "VI", "VII"]

/-- A diatonic chord entry of the scale catalog (`DiatonicChord`). -/
structure DiatonicChord where
  root_note : String
  chord_type : String
  degree : String
deriving DecidableEq, Repr

/-- The scale catalog type, `HashMap<String, Vec<DiatonicChord>>`. -/
abbrev ScaleMap : Type := List (String × List DiatonicChord)

/-- The seven diatonic chords of the `i`-th major scale, as built by the
inner loop of `get_scale_map`. -/
def majorDiatonics (i : Nat) : List DiatonicChord :=
  (List.range 7).map fun j =>
    { root_note := noteNames.getD ((i + majorPattern.getD j 0) % 12) ""
      chord_type := majorChordTypes.getD j ""
      degree := majorDegrees.getD j "" }

/-- The seven diatonic chords of the `i`-th minor scale, as built by the
inner loop of `get_scale_map`. -/
def minorDiatonics (i : Nat) : List DiatonicChord :=
  (List.range 7).map fun j =>
    { root_note := noteNames.getD ((i + minorPattern.getD j 0) % 12) ""
      chord_type := minorChordTypes.getD j ""
      degree := minorDegrees.getD j "" }

/-- Model of `get_scale_map`: for each of the 12 roots, insert the major and the
minor scale's diatonic chord list under the keys `"<note> Major"` and
`"<note> Minor"`. -/
def getScaleMap : ScaleMap :=
  (List.range 12).foldl
    (fun (scales : ScaleMap) i =>
      insertA
        (insertA scales (noteNames.getD i "" ++ " Major") (majorDiatonics i))
        (noteNames.getD i "" ++ " Minor") (minorDiatonics i))
    []

/-- A chord identity (`ChordId`): root note name and chord quality. -/
structure ChordId where
  root_note : String
  chord_type : String
deriving DecidableEq, Repr

/-- One chord's voicing data (`ChordVoicing`): the ordered list of
inversions, each a list of MIDI note numbers. -/
structure ChordVoicing where
  inversions : List (List Nat)
deriving DecidableEq, Repr

/-- The voicing table type, `HashMap<String, HashMap<String, ChordVoicing>>`. -/
abbrev ChordTable : Type := List (String × List (String × ChordVoicing))

/-- Model of `chord_table.get(&root).and_then(|v| v.get(&chord_type))`. -/
def tableLookup (t : ChordTable) (c : ChordId) : Option ChordVoicing :=
  (lookupA t c.root_note).bind fun inner => lookupA inner c.chord_type

/-- The trigger keys used by the plugin (the seven mappable `egui::Key`s). -/
inductive Key
  | Z | X | C | V | B | N | M
deriving DecidableEq, Repr

/-- The `default_keys` array of `generate_default_key_mappings`. -/
def defaultKeys : List Key := [.Z, .X, .C, .V, .B, .N, .M]

/-- Model of `generate_default_key_mappings`: look up the scale's diatonic chords
and bind the `i`-th default key to the `i`-th diatonic chord. -/
def generateDefaultKeyMappings (sm : ScaleMap) (current_scale : String) :
    List (Key × ChordId) :=
  match lookupA sm current_scale with
  | some diatonics =>
      defaultKeys.enum.foldl
        (fun m p =>
          match diatonics.get? p.1 with
          | some dc => insertA m p.2 ⟨dc.root_note, dc.chord_type⟩
          | none => m)
        []
  | none => []

/-- Rust's `str::split_whitespace`, as a structurally recursive word
splitter over the character list. -/
def splitWSAux : List Char → List Char → List String
  | [], acc => if acc.isEmpty then [] else [String.mk acc.reverse]
  | ch :: cs, acc =>
      if ch.isWhitespace then
        if acc.isEmpty then splitWSAux cs []
        else String.mk acc.reverse :: splitWSAux cs []
      else splitWSAux cs (ch :: acc)

/-- Model of `scale.split_whitespace().collect::<Vec<_>>()`. -/
def splitWhitespaceM (s : String) : List String := splitWSAux s.data []

/-- Wrapping conversion of an integer into the `i8` range, modelling
Rust's release-mode two's-complement wrapping arithmetic. -/
def wrapI8 (x : Int) : Int := (x + 128) % 256 - 128

/-- Model of `let octave_offset = (self.state.octave - 3) * 12;` in `i8`
arithmetic (each operation wraps to `i8`). -/
def octaveOffset (octave : Int) : Int := wrapI8 (wrapI8 (octave - 3) * 12)

/-- Model of `let final_note = (*note as i16 + octave_offset as i16) as u8;`:
the `i16` sum is exact and the `as u8` cast keeps the low 8 bits. -/
def finalNote (note : Nat) (octave : Int) : Nat :=
  (((note : Int) + octaveOffset octave) % 256).toNat

/-- A MIDI note event emitted by `process` (note number only; timing,
channel and velocity are the constants of the source). -/
inductive Event
  | on (note : Nat)
  | off (note : Nat)
deriving DecidableEq, Repr

/-- The control messages of the `MidiMessage` enum. -/
inductive Msg
  | chordOn (c : ChordId)
  | chordOff
  | setInversionChord (c : ChordId)
  | updateOctave (o : Int)
  | updateInversion (c : ChordId) (i : Nat)
  | updateScale (s : String)
  | updateKeyMapping (k : Key) (c : ChordId)
  | keyChordOn (k : Key)
  | keyChordOff (k : Key)
deriving DecidableEq, Repr

/-- The processing-side state: the `GuiState` fields owned by
`PerfectChords.state` plus `active_notes` and the immutable
`chord_table`. -/
structure PState where
  octave : Int
  root_note : String
  scale_type : String
  playing_chord : Option ChordId
  inversion_chord : Option ChordId
  inversion_map : List (ChordId × Nat)
  key_mappings : List (Key × ChordId)
  playing_key : Option Key
  active_notes : List Nat
  chord_table : ChordTable
deriving DecidableEq, Repr

/-- The inversion index used by `process` for a chord:
`inversion_map.get(&chord_id).copied().unwrap_or(0)`. -/
def invIdx (s : PState) (c : ChordId) : Nat :=
  (lookupA s.inversion_map c).getD 0

/-- The base (un-transposed) notes that a `ChordOn`/`KeyChordOn` selects:
`voicing.inversions[current_inversion % num_inversions]` when the chord
is present with a non-empty inversion list, `[]` otherwise. Rust's
panicking index is modelled by the safe `get?` with default `[]`. -/
def selectedVoicing (s : PState) (c : ChordId) : List Nat :=
  match tableLookup s.chord_table c with
  | some voicing =>
      if voicing.inversions.length > 0 then
        (voicing.inversions.get? (invIdx s c % voicing.inversions.length)).getD []
      else []
  | none => []

/-- The octave-adjusted notes emitted (and recorded in `active_notes`)
for a resolved chord. -/
def resolveNotes (s : PState) (c : ChordId) : List Nat :=
  (selectedVoicing s c).map fun note => finalNote note s.octave

/-- One iteration of the `process` message loop: fold a single
`MidiMessage` into the state and collect the emitted note events, in
emission order. -/
def step (s : PState) (m : Msg) : PState × List Event :=
  match m with
  | .chordOn c =>
      let ns := resolveNotes s c
      ({ s with active_notes := ns, playing_chord := some c },
        s.active_notes.map Event.off ++ ns.map Event.on)
  | .chordOff =>
      ({ s with active_notes := [], playing_chord := none },
        s.active_notes.map Event.off)
  | .setInversionChord c =>
      ({ s with inversion_chord := some c }, [])
  | .updateOctave o =>
      ({ s with octave := o }, [])
  | .updateInversion c i =>
      ({ s with inversion_map := insertA s.inversion_map c i }, [])
  | .updateScale scale =>
      let parts := splitWhitespaceM scale
      if parts.length = 2 then
        ({ s with
            root_note := parts.getD 0 "",
            scale_type := parts.getD 1 "",
            key_mappings := generateDefaultKeyMappings getScaleMap scale }, [])
      else (s, [])
  | .updateKeyMapping k c =>
      ({ s with key_mappings := insertA s.key_mappings k c }, [])
  | .keyChordOn k =>
      match lookupA s.key_mappings k with
      | some c =>
          let ns := resolveNotes s c
          ({ s with active_notes := ns, playing_chord := some c, playing_key := some k },
            s.active_notes.map Event.off ++ ns.map Event.on)
      | none => (s, [])
  | .keyChordOff _ =>
      ({ s with active_notes := [], playing_chord := none, playing_key := none },
        s.active_notes.map Event.off)

/-- Fold a whole message sequence through `step`, concatenating the
emitted events in order. -/
def run (s : PState) : List Msg → PState × List Event
  | [] => (s, [])
  | m :: ms =>
      let r1 := step s m
      let r2 := run r1.1 ms
      (r2.1, r1.2 ++ r2.2)

/-- The initial processing state (`GuiState::default()` plus the empty
`active_notes`), parameterized by the voicing table loaded at startup. -/
def initState (table : ChordTable) : PState :=
  { octave := 3
    root_note := "C"
    scale_type := "Major"
    playing_chord := none
    inversion_chord := none
    inversion_map := []
    key_mappings := generateDefaultKeyMappings getScaleMap "C Major"
    playing_key := none
    active_notes := []
    chord_table := table }

/-- The two scale modes offered by the UI (`["Major", "Minor"]`). -/
inductive Mode
  | major
  | minor
deriving DecidableEq, Repr, Fintype

/-- The suffix appended by `format!("{} {}", root, mode)`. -/
def modeSuffix : Mode → String
  | .major => " Major"
  | .minor => " Minor"

/-- The scale-map key for root index `i` and mode `mo`. -/
def scaleNameOf (i : Fin 12) (mo : Mode) : String :=
  noteNames.getD i "" ++ modeSuffix mo

/-- The degree offset table of a mode. -/
def modePattern : Mode → List Nat
  | .major => majorPattern
  | .minor => minorPattern

/-- The degree quality table of a mode. -/
def modeChordTypes : Mode → List String
  | .major => majorChordTypes
  | .minor => minorChordTypes

/-- The degree label table of a mode. -/
def modeDegrees : Mode → List String
  | .major => majorDegrees
  | .minor => minorDegrees

/-- The diatonic chord list stored in the scale catalog for a root/mode. -/
def scaleEntry (i : Fin 12) (mo : Mode) : List DiatonicChord :=
  (lookupA getScaleMap (scaleNameOf i mo)).getD []

/-- The editor-side display state used by the keyboard trigger handler
(the `key_mappings`, `playing_key` and `playing_chord` fields of the
editor's `GuiState` copy). -/
structure EditorState where
  playing_key : Option Key
  playing_chord : Option ChordId
  key_mappings : List (Key × ChordId)
deriving DecidableEq, Repr

/-- The editor's keyboard event handler (`egui_ctx.input` loop in
`editor`): on a non-repeat event for a mapped key, a press records the
key and sends `KeyChordOn` unless the key is already playing, and a
release clears the key and sends `KeyChordOff` only if the key is the
one playing. -/
def editorKeyEvent (es : EditorState) (k : Key) (pressed rpt : Bool) :
    EditorState × Option Msg :=
  if !rpt && (lookupA es.key_mappings k).isSome then
    if pressed then
      if es.playing_key ≠ some k then
        ({ es with playing_key := some k, playing_chord := lookupA es.key_mappings k },
          some (Msg.keyChordOn k))
      else (es, none)
    else
      if es.playing_key = some k then
        ({ es with playing_key := none, playing_chord := none }, some (Msg.keyChordOff k))
      else (es, none)
  else (es, none)

/-- A keyboard event travelling through the whole pipeline: the editor
handler runs first and the processing loop folds the message it sends,
if any. -/
def keyPress (st : EditorState × PState) (k : Key) (pressed rpt : Bool) :
    (EditorState × PState) × List Event :=
  match editorKeyEvent st.1 k pressed rpt with
  | (es, some m) => ((es, (step st.2 m).1), (step st.2 m).2)
  | (es, none) => ((es, st.2), [])

/-- The running multiset of sounding notes implied by an event trace:
a note-on adds the note, a note-off removes one occurrence. -/
def updSound (sounding : List Nat) : Event → List Nat
  | .on n => sounding ++ [n]
  | .off n => sounding.erase n

/-- The per-event change a message makes to the sounding-note set:
`some notes` for the sound-affecting messages (`ChordOn`, a mapped
`KeyChordOn`, `ChordOff`, `KeyChordOff`), `none` for all others. -/
def soundEffect (s : PState) : Msg → Option (List Nat)
  | .chordOn c => some (resolveNotes s c)
  | .keyChordOn k =>
      match lookupA s.key_mappings k with
      | some c => some (resolveNotes s c)
      | none => none
  | .chordOff => some []
  | .keyChordOff _ => some []
  | _ => none

/-- Holds (as `true`) when no message of the list is sound-affecting at the state
it is folded in. -/
def noSoundEffectB (s : PState) : List Msg → Bool
  | [] => true
  | m :: ms => (soundEffect s m).isNone && noSoundEffectB (step s m).1 ms

end PerfectChords

namespace PerfectChords

lemma lookupA_insertA {α β : Type} [DecidableEq α] (l : List (α × β)) (k k' : α) (v : β) :
    lookupA (insertA l k v) k' = if k = k' then some v else lookupA l k' := by
  induction l with
  | nil => simp [insertA, lookupA]
  | cons p ps ih =>
      by_cases hp : p.1 = k
      · simp only [insertA, if_pos hp, lookupA]
        by_cases hk : k = k'
        · simp [hk]
        · have hp2 : p.1 ≠ k' := by rw [hp]; exact hk
          simp [hk, hp2]
      · simp only [insertA, if_neg hp, lookupA, ih]
        by_cases hpk : p.1 = k'
        · have : ¬ k = k' := fun h => hp (h ▸ hpk)
          simp [hpk, this]
        · simp [hpk]

lemma lookupA_mem {α β : Type} [DecidableEq α] {l : List (α × β)} {k : α} {v : β}
    (h : lookupA l k = some v) : (k, v) ∈ l := by
  induction l with
  | nil => simp [lookupA] at h
  | cons p ps ih =>
      rcases p with ⟨a, b⟩
      by_cases hp : a = k
      · simp only [lookupA, if_pos hp] at h
        subst hp
        simp only [Option.some.injEq] at h
        subst h
        exact List.mem_cons_self _ _
      · simp only [lookupA, if_neg hp] at h
        exact List.mem_cons_of_mem _ (ih h)

lemma step_active_notes (s : PState) (m : Msg) :
    (step s m).1.active_notes = (soundEffect s m).getD s.active_notes := by
  cases m with
  | chordOn c => simp [step, soundEffect]
  | chordOff => simp [step, soundEffect]
  | setInversionChord c => simp [step, soundEffect]
  | updateOctave o => simp [step, soundEffect]
  | updateInversion c i => simp [step, soundEffect]
  | updateScale name =>
      simp only [step, soundEffect]
      by_cases h : (splitWhitespaceM name).length = 2 <;> simp [h]
  | updateKeyMapping k c => simp [step, soundEffect]
  | keyChordOn k =>
      simp only [step, soundEffect]
      cases h : lookupA s.key_mappings k <;> simp [h]
  | keyChordOff k => simp [step, soundEffect]

lemma run_append (s : PState) (l1 l2 : List Msg) :
    run s (l1 ++ l2) =
      ((run (run s l1).1 l2).1, (run s l1).2 ++ (run (run s l1).1 l2).2) := by
  induction l1 generalizing s with
  | nil => simp [run]
  | cons m ms ih => simp [run, ih, List.append_assoc]

lemma foldl_updSound_offs (l : List Nat) :
    List.foldl updSound l (l.map Event.off) = [] := by
  induction l with
  | nil => rfl
  | cons a l ih =>
      simp only [List.map_cons, List.foldl_cons, updSound, List.erase_cons_head]
      exact ih

lemma foldl_updSound_ons (ns : List Nat) (acc : List Nat) :
    List.foldl updSound acc (ns.map Event.on) = acc ++ ns := by
  induction ns generalizing acc with
  | nil => simp
  | cons n ns ih =>
      simp only [List.map_cons, List.foldl_cons, updSound, ih]
      simp

lemma step_trace_sound (s : PState) (m : Msg) :
    (step s m).1.active_notes = List.foldl updSound s.active_notes (step s m).2 := by
  cases m with
  | chordOn c =>
      simp only [step, List.foldl_append, foldl_updSound_offs, foldl_updSound_ons]
      simp
  | chordOff => simp [step, foldl_updSound_offs]
  | setInversionChord c => simp [step]
  | updateOctave o => simp [step]
  | updateInversion c i => simp [step]
  | updateScale name =>
      simp only [step]
      by_cases h : (splitWhitespaceM name).length = 2 <;> simp [h]
  | updateKeyMapping k c => simp [step]
  | keyChordOn k =>
      cases h : lookupA s.key_mappings k with
      | some c =>
          simp only [step, h, List.foldl_append, foldl_updSound_offs, foldl_updSound_ons]
          simp
      | none => simp [step, h]
  | keyChordOff k => simp [step, foldl_updSound_offs]

lemma run_trace_sound (s : PState) (ms : List Msg) :
    (run s ms).1.active_notes = List.foldl updSound s.active_notes (run s ms).2 := by
  induction ms generalizing s with
  | nil => simp [run]
  | cons m ms ih =>
      simp only [run, List.foldl_append]
      rw [ih, ← step_trace_sound]

lemma run_noSoundEffect (s : PState) (ms : List Msg)
    (h : noSoundEffectB s ms = true) :
    (run s ms).1.active_notes = s.active_notes := by
  induction ms generalizing s with
  | nil => simp [run]
  | cons m ms ih =>
      simp only [noSoundEffectB, Bool.and_eq_true] at h
      have h1 := step_active_notes s m
      rw [Option.isNone_iff_eq_none.mp h.1] at h1
      simp only [Option.getD_none] at h1
      simp only [run]
      rw [ih _ h.2, h1]

lemma lookupA_foldl_insert (l : List DiatonicChord) (ps : List (Nat × Key))
    (m0 : List (Key × ChordId)) (k : Key) (c : ChordId)
    (h : lookupA
        (ps.foldl
          (fun m p =>
            match l.get? p.1 with
            | some dc => insertA m p.2 ⟨dc.root_note, dc.chord_type⟩
            | none => m)
          m0) k = some c) :
    (∃ dc ∈ l, c = ⟨dc.root_note, dc.chord_type⟩) ∨ lookupA m0 k = some c := by
  induction ps generalizing m0 with
  | nil => exact Or.inr h
  | cons p ps ih =>
      simp only [List.foldl_cons] at h
      cases hget : l.get? p.1 with
      | none =>
          rw [hget] at h
          exact ih _ h
      | some dc =>
          rw [hget] at h
          rcases ih _ h with hc | hc
          · exact Or.inl hc
          · rw [lookupA_insertA] at hc
            by_cases hk : p.2 = k
            · rw [if_pos hk] at hc
              refine Or.inl ⟨dc, List.get?_mem hget, ?_⟩
              exact ((Option.some.injEq _ _).mp hc).symm
            · rw [if_neg hk] at hc
              exact Or.inr hc

lemma lookupA_genDefault_mem {sm : ScaleMap} {name : String} {k : Key} {c : ChordId}
    (h : lookupA (generateDefaultKeyMappings sm name) k = some c) :
    ∃ l, lookupA sm name = some l ∧ ∃ dc ∈ l, c = ⟨dc.root_note, dc.chord_type⟩ := by
  unfold generateDefaultKeyMappings at h
  cases hl : lookupA sm name with
  | none => rw [hl] at h; simp [lookupA] at h
  | some l =>
      rw [hl] at h
      rcases lookupA_foldl_insert l _ _ _ _ h with hc | hc
      · exact ⟨l, rfl, hc⟩
      · simp [lookupA] at hc

set_option maxRecDepth 8000 in
lemma scaleMap_chord_types :
    ∀ p ∈ getScaleMap, ∀ dc ∈ p.2,
      dc.chord_type = "maj" ∨ dc.chord_type = "m" ∨ dc.chord_type = "dim" := by decide

lemma genDefault_chord_type {name : String} {k : Key} {c : ChordId}
    (h : lookupA (generateDefaultKeyMappings getScaleMap name) k = some c) :
    c.chord_type = "maj" ∨ c.chord_type = "m" ∨ c.chord_type = "dim" := by
  obtain ⟨l, hl, dc, hdc, hc⟩ := lookupA_genDefault_mem h
  subst hc
  exact scaleMap_chord_types _ (lookupA_mem hl) dc hdc

lemma finalNote_int (n : Nat) (o : Int) :
    (finalNote n o : Int) = ((n : Int) + (o - 3) * 12) % 256 := by
  unfold finalNote octaveOffset wrapI8
  rw [Int.toNat_of_nonneg (Int.emod_nonneg _ (by norm_num))]
  omega

set_option maxRecDepth 8000

/-- C6: for every one of the 12 root notes and both modes, the scale
catalog (`get_scale_map`) holds exactly 7 diatonic chords in scale-degree
order, the `j`-th with root note name `noteNames[(root + offset[j]) % 12]`
for the fixed offset tables (Major `[0,2,4,5,7,9,11]`, Minor
`[0,2,3,5,7,8,10]`), with the fixed quality and degree-label patterns;
the derivation is total (every key is present). -/
theorem scale_catalog_diatonics :
    ∀ (i : Fin 12) (mo : Mode),
      lookupA getScaleMap (scaleNameOf i mo) = some (scaleEntry i mo) ∧
      (scaleEntry i mo).length = 7 ∧
      ∀ (j : Fin 7),
        (scaleEntry i mo).getD j ⟨"", "", ""⟩ =
          ⟨noteNames.getD ((i + (modePattern mo).getD j 0) % 12) "",
            (modeChordTypes mo).getD j "",
            (modeDegrees mo).getD j ""⟩ := by decide

/-- C9: the emitted notes are `selectedVoicing` mapped through
`finalNote`, and `finalNote base octave` is congruent to
`base + (octave − 3) × 12` modulo 256: it equals that value exactly when
the value is in 0–127, and an out-of-range value is emitted reduced
modulo 256 (never clamped, dropped or rejected) — in particular a value
in 128–255 is emitted as-is, above the MIDI range. -/
theorem note_emission_formula :
    (∀ (s : PState) (c : ChordId),
      resolveNotes s c = (selectedVoicing s c).map fun note => finalNote note s.octave) ∧
    (∀ (n : Nat) (o : Int),
      (finalNote n o : Int) = ((n : Int) + (o - 3) * 12) % 256) ∧
    (∀ (n : Nat) (o : Int),
      0 ≤ (n : Int) + (o - 3) * 12 → (n : Int) + (o - 3) * 12 ≤ 127 →
      (finalNote n o : Int) = (n : Int) + (o - 3) * 12) ∧
    (∀ (n : Nat) (o : Int),
      127 < (n : Int) + (o - 3) * 12 → (n : Int) + (o - 3) * 12 < 256 →
      (finalNote n o : Int) = (n : Int) + (o - 3) * 12) := by
  refine ⟨fun s c => rfl, finalNote_int, fun n o h1 h2 => ?_, fun n o h1 h2 => ?_⟩
  · rw [finalNote_int]; omega
  · rw [finalNote_int]; omega

/-- Witness for C9: a concrete in-range note (60 at octave 4 ↦ 72) and a
concrete out-of-range note (120 at octave 4 ↦ 132, emitted unclamped). -/
theorem note_emission_formula_witness :
    (finalNote 60 4 : Int) = (60 : Int) + ((4 : Int) - 3) * 12 ∧
    (finalNote 120 4 : Int) = (120 : Int) + ((4 : Int) - 3) * 12 :=
  ⟨note_emission_formula.2.2.1 60 4 (by norm_num) (by norm_num),
    note_emission_formula.2.2.2 120 4 (by norm_num) (by norm_num)⟩

/-- C10: an `UpdateScale` whose scale string does not split into exactly
two whitespace-separated tokens is a complete no-op: no events are
emitted and the state is returned unchanged. -/
theorem updateScale_invalid_noop (s : PState) (name : String)
    (h : (splitWhitespaceM name).length ≠ 2) :
    step s (Msg.updateScale name) = (s, []) := by
  simp [step, h]

/-- Witness for C10: `"CMajor"` splits into one token, so the event
leaves the initial state untouched and emits nothing. -/
theorem updateScale_invalid_noop_witness :
    step (initState []) (Msg.updateScale "CMajor") = (initState [], []) :=
  updateScale_invalid_noop (initState []) "CMajor" (by decide)

/-- A small voicing table: C major with a single voicing. -/
def exChordTable : ChordTable := [("C", [("maj", ⟨[[60, 64, 67]]⟩)])]

/-- A state with a note already sounding, for the flush witnesses. -/
def exFlushState : PState := { initState exChordTable with active_notes := [50] }

/-- C1: every `ChordOn` and every mapped `KeyChordOn` first emits
note-off for each note in `active_notes` (and replaces the set with the
newly emitted notes) before any note-on; moreover, over any folded
message sequence, `active_notes` is exactly the sounding set implied by
the emitted trace, so no note-on of a new request is emitted while a
previous request's note lacks its note-off. -/
theorem chordOn_flushes_before_noteOn :
    (∀ (s : PState) (c : ChordId), ∃ ns,
      (step s (Msg.chordOn c)).2 = s.active_notes.map Event.off ++ ns.map Event.on ∧
      (step s (Msg.chordOn c)).1.active_notes = ns) ∧
    (∀ (s : PState) (k : Key) (c : ChordId),
      lookupA s.key_mappings k = some c → ∃ ns,
      (step s (Msg.keyChordOn k)).2 = s.active_notes.map Event.off ++ ns.map Event.on ∧
      (step s (Msg.keyChordOn k)).1.active_notes = ns) ∧
    (∀ (s : PState) (ms : List Msg),
      (run s ms).1.active_notes = List.foldl updSound s.active_notes (run s ms).2) := by
  refine ⟨fun s c => ⟨resolveNotes s c, rfl, rfl⟩, fun s k c h => ?_, run_trace_sound⟩
  exact ⟨resolveNotes s c, by simp [step, h], by simp [step, h]⟩

/-- Witness for C1: key `Z` is mapped to C major in the default mapping;
triggering it from a state with note 50 sounding flushes first. -/
theorem chordOn_flushes_before_noteOn_witness :
    ∃ ns,
      (step exFlushState (Msg.keyChordOn Key.Z)).2 =
        exFlushState.active_notes.map Event.off ++ ns.map Event.on ∧
      (step exFlushState (Msg.keyChordOn Key.Z)).1.active_notes = ns :=
  chordOn_flushes_before_noteOn.2.1 exFlushState Key.Z ⟨"C", "maj"⟩ (by decide)

/-- A table whose C major chord has two inversions, for the inversion
claims. -/
def exInvTable : ChordTable := [("C", [("maj", ⟨[[60], [64]]⟩)])]

/-- A state pinning G major as inversion target (index 1 selected for
it) while C major has no inversion entry. -/
def exPinState : PState :=
  { initState exInvTable with
      inversion_chord := some ⟨"G", "maj"⟩,
      inversion_map := [(⟨"G", "maj"⟩, 1)] }

/-- C3 counterexample: with `inversion_chord = G maj` whose selected
inversion index is 1, `ChordOn(C maj)` emits C major's index-0 voicing
(note 60) — the requested chord's own (absent, hence 0) inversion entry
— not the index-1 voicing (note 64) that the pinned target's entry
selects; the code never consults the pin during resolution. -/
theorem inversion_pin_resolution_cex :
    exPinState.inversion_chord = some ⟨"G", "maj"⟩ ∧
    lookupA exPinState.inversion_map ⟨"G", "maj"⟩ = some 1 ∧
    lookupA exPinState.inversion_map ⟨"C", "maj"⟩ = none ∧
    (step exPinState (Msg.chordOn ⟨"C", "maj"⟩)).2 = [Event.on 60] ∧
    (tableLookup exPinState.chord_table ⟨"C", "maj"⟩).map
        (fun v => (v.inversions.get? (1 % v.inversions.length)).getD []) = some [64] ∧
    (step exPinState (Msg.chordOn ⟨"C", "maj"⟩)).1.playing_chord = some ⟨"C", "maj"⟩ ∧
    [Event.on 60] ≠ ([Event.on 64] : List Event) := by decide

/-- C3 amended: `ChordOn(c)` resolves the inversion index and voicing
from the requested chord `c`'s own entry, entirely independent of
`inversion_chord` (the pin only selects which chord the editor's
inversion buttons edit), while recording `playing_chord = c`. -/
theorem inversion_pin_resolution (s : PState) (c : ChordId) (p : Option ChordId) :
    step { s with inversion_chord := p } (Msg.chordOn c) =
      ({ (step s (Msg.chordOn c)).1 with inversion_chord := p },
        (step s (Msg.chordOn c)).2) ∧
    (step s (Msg.chordOn c)).1.playing_chord = some c :=
  ⟨rfl, rfl⟩

/-- A state with note 60 sounding and key `Z` as the active trigger. -/
def exTriggerState : PState :=
  { initState [] with
      active_notes := [60],
      playing_key := some Key.Z,
      playing_chord := some ⟨"C", "maj"⟩ }

/-- C4 counterexample: a `KeyChordOff(X)` while the active trigger is
`Z` still emits the note-off and clears the state — the claim's "no
effect when the trigger does not match" fails on `process`, which
ignores the released key entirely. -/
theorem triggerOff_mismatch_cex :
    exTriggerState.playing_key = some Key.Z ∧
    Key.X ≠ Key.Z ∧
    (step exTriggerState (Msg.keyChordOff Key.X)).2 = [Event.off 60] ∧
    (step exTriggerState (Msg.keyChordOff Key.X)).1.active_notes = [] ∧
    (step exTriggerState (Msg.keyChordOff Key.X)).1.playing_key = none := by decide

/-- C4 amended: a `KeyChordOff(k)` event behaves exactly like `ChordOff`
plus clearing `playing_key`, unconditionally for every `k` — the
match-against-the-active-trigger guard lives in the editor's keyboard
handler, not in the processing state machine. -/
theorem triggerOff_unconditional (s : PState) (k : Key) :
    step s (Msg.keyChordOff k) =
      ({ (step s Msg.chordOff).1 with playing_key := none },
        (step s Msg.chordOff).2) :=
  rfl

/-- A state with inversion index 5 selected for C major (which has two
voicings), exercising the modulo wrap. -/
def exInvState : PState :=
  { initState exInvTable with inversion_map := [(⟨"C", "maj"⟩, 5)] }

/-- C7: voicing resolution selects `inversions[i % N]` whenever the
chord is present with a non-empty voicing list (the index access is
always in range, so it never fails), and produces silence — the empty
note list, hence no note-on events — when the chord is absent or its
voicing list is empty. -/
theorem voicing_resolution_modulo (s : PState) (c : ChordId) :
    (∀ v, tableLookup s.chord_table c = some v → v.inversions ≠ [] →
      ∃ w, v.inversions.get? (invIdx s c % v.inversions.length) = some w ∧
        resolveNotes s c = w.map fun note => finalNote note s.octave) ∧
    (tableLookup s.chord_table c = none → resolveNotes s c = []) ∧
    (∀ v, tableLookup s.chord_table c = some v → v.inversions = [] →
      resolveNotes s c = []) ∧
    (step s (Msg.chordOn c)).2 =
      s.active_notes.map Event.off ++ (resolveNotes s c).map Event.on := by
  refine ⟨?_, ?_, ?_, rfl⟩
  · intro v hv hne
    have hpos : 0 < v.inversions.length := List.length_pos.mpr hne
    have hlt : invIdx s c % v.inversions.length < v.inversions.length :=
      Nat.mod_lt _ hpos
    refine ⟨v.inversions.get ⟨_, hlt⟩, List.get?_eq_get hlt, ?_⟩
    unfold resolveNotes selectedVoicing
    rw [hv]
    simp [hpos, List.getElem?_eq_getElem hlt]
  · intro hv
    unfold resolveNotes selectedVoicing
    rw [hv]
    simp
  · intro v hv he
    unfold resolveNotes selectedVoicing
    rw [hv]
    simp [he]

/-- Witness for C7: index 5 on a 2-voicing chord wraps to index 1 and
resolves without failing. -/
theorem voicing_resolution_modulo_witness :
    ∃ w,
      (⟨[[60], [64]]⟩ : ChordVoicing).inversions.get?
          (invIdx exInvState ⟨"C", "maj"⟩ %
            (⟨[[60], [64]]⟩ : ChordVoicing).inversions.length) = some w ∧
      resolveNotes exInvState ⟨"C", "maj"⟩ =
        w.map fun note => finalNote note exInvState.octave :=
  (voicing_resolution_modulo exInvState ⟨"C", "maj"⟩).1 ⟨[[60], [64]]⟩
    (by decide) (by decide)

/-- C2 counterexample: from the initial state, `ChordOn(C maj)` resolves
the non-empty voicing `[60, 64, 67]`, and the active trigger is `none`,
so a following `KeyChordOff(X)` matches no active trigger — yet the
machine empties `active_notes` instead of leaving the most recently
resolved voicing sounding. -/
theorem sounding_invariant_cex :
    (run (initState exChordTable) [Msg.chordOn ⟨"C", "maj"⟩]).1.active_notes =
      [60, 64, 67] ∧
    (run (initState exChordTable) [Msg.chordOn ⟨"C", "maj"⟩]).1.playing_key = none ∧
    (run (initState exChordTable)
        [Msg.chordOn ⟨"C", "maj"⟩, Msg.keyChordOff Key.X]).1.active_notes = [] ∧
    ([] : List Nat) ≠ [60, 64, 67] := by decide

/-- C2 amended: after any event sequence from the initial state,
`active_notes` equals the octave-adjusted notes of the most recently
resolved voicing (`soundEffect` returns `some (resolveNotes …)` for a
`ChordOn`/mapped `KeyChordOn`, and `some []` for `ChordOff` and for
*any* `KeyChordOff`, matching or not), and it is empty while no
sound-affecting event has occurred. -/
theorem sounding_invariant :
    (∀ (table : ChordTable) (pre : List Msg) (m : Msg) (suf : List Msg) (v : List Nat),
      soundEffect (run (initState table) pre).1 m = some v →
      noSoundEffectB (step (run (initState table) pre).1 m).1 suf = true →
      (run (initState table) (pre ++ m :: suf)).1.active_notes = v) ∧
    (∀ (table : ChordTable) (ms : List Msg),
      noSoundEffectB (initState table) ms = true →
      (run (initState table) ms).1.active_notes = []) := by
  constructor
  · intro table pre m suf v h1 h2
    rw [run_append]
    simp only [run]
    rw [run_noSoundEffect _ _ h2, step_active_notes, h1]
    rfl
  · intro table ms h
    rw [run_noSoundEffect _ _ h]
    rfl

/-- Witness for C2: the resolved C major voicing stays sounding across a
following non-sound event (`UpdateOctave`). -/
theorem sounding_invariant_witness :
    (run (initState exChordTable)
        ([] ++ Msg.chordOn ⟨"C", "maj"⟩ :: [Msg.updateOctave 5])).1.active_notes =
      [60, 64, 67] :=
  sounding_invariant.1 exChordTable [] (Msg.chordOn ⟨"C", "maj"⟩)
    [Msg.updateOctave 5] [60, 64, 67] (by decide) (by decide)

lemma keyPress_rpt (st : EditorState × PState) (k : Key) (pressed : Bool) :
    keyPress st k pressed true = (st, []) := by
  unfold keyPress editorKeyEvent
  simp

lemma keyPress_active_noop (st : EditorState × PState) (k : Key)
    (h : st.1.playing_key = some k) :
    keyPress st k true false = (st, []) := by
  unfold keyPress editorKeyEvent
  cases hm : (lookupA st.1.key_mappings k).isSome with
  | false => simp [hm]
  | true => simp [hm, h]

lemma keyPress_cases (st : EditorState × PState) (k : Key) :
    keyPress st k true false = (st, []) ∨
    (keyPress st k true false).1.1.playing_key = some k := by
  unfold keyPress editorKeyEvent
  cases hm : (lookupA st.1.key_mappings k).isSome with
  | false => left; simp [hm]
  | true =>
      by_cases hp : st.1.playing_key = some k
      · left; simp [hm, hp]
      · right; simp [hm, hp]

/-- C5: a key press for the trigger that is already active is a no-op of
the whole pipeline (editor keyboard handler plus processing loop): no
message is sent, no event is emitted and both states are unchanged; in
particular a second consecutive press of the same key — with or without
the key-repeat flag — is always a no-op. -/
theorem trigger_repeat_noop :
    (∀ (st : EditorState × PState) (k : Key),
      st.1.playing_key = some k → keyPress st k true false = (st, [])) ∧
    (∀ (st : EditorState × PState) (k : Key) (rpt : Bool),
      keyPress (keyPress st k true false).1 k true rpt =
        ((keyPress st k true false).1, [])) := by
  refine ⟨keyPress_active_noop, ?_⟩
  intro st k rpt
  cases rpt with
  | true => exact keyPress_rpt _ k true
  | false =>
      rcases keyPress_cases st k with hA | hB
      · rw [hA]
        exact hA
      · exact keyPress_active_noop _ k hB

/-- An editor display state in which key `Z` is already playing. -/
def exEditorState : EditorState :=
  { playing_key := some Key.Z
    playing_chord := some ⟨"C", "maj"⟩
    key_mappings := generateDefaultKeyMappings getScaleMap "C Major" }

/-- Witness for C5: pressing the already-active key `Z` changes nothing
and emits nothing. -/
theorem trigger_repeat_noop_witness :
    keyPress (exEditorState, initState exChordTable) Key.Z true false =
      ((exEditorState, initState exChordTable), []) :=
  trigger_repeat_noop.1 (exEditorState, initState exChordTable) Key.Z rfl

/-- C8: a valid `UpdateScale` replaces the whole `key_mappings` table
with the new scale's default mapping, regardless of any prior
`UpdateKeyMapping` override; an override whose quality is not a diatonic
quality (maj/m/dim) is therefore absent from the table afterwards; and
the default mapping binds the 7 fixed trigger keys to the scale's 7
diatonic chords in degree order. -/
theorem updateScale_replaces_mappings (s : PState) (k : Key) (c : ChordId)
    (name : String) (h : (splitWhitespaceM name).length = 2) :
    ((step (step s (Msg.updateKeyMapping k c)).1 (Msg.updateScale name)).1.key_mappings =
      generateDefaultKeyMappings getScaleMap name) ∧
    (c.chord_type ≠ "maj" → c.chord_type ≠ "m" → c.chord_type ≠ "dim" →
      ∀ k2, lookupA
          (step (step s (Msg.updateKeyMapping k c)).1
            (Msg.updateScale name)).1.key_mappings k2 ≠ some c) ∧
    (∀ (i : Fin 12) (mo : Mode) (j : Fin 7),
      lookupA (generateDefaultKeyMappings getScaleMap (scaleNameOf i mo))
          (defaultKeys.getD j Key.Z) =
        some ⟨((scaleEntry i mo).getD j ⟨"", "", ""⟩).root_note,
              ((scaleEntry i mo).getD j ⟨"", "", ""⟩).chord_type⟩) := by
  have hkm : (step (step s (Msg.updateKeyMapping k c)).1
      (Msg.updateScale name)).1.key_mappings =
      generateDefaultKeyMappings getScaleMap name := by
    simp [step, h]
  refine ⟨hkm, ?_, ?_⟩
  · intro h1 h2 h3 k2 hlk
    rw [hkm] at hlk
    rcases genDefault_chord_type hlk with ht | ht | ht
    · exact h1 ht
    · exact h2 ht
    · exact h3 ht
  · decide

/-- Witness for C8: after overriding key `Z` with C7 (a non-diatonic
quality) and switching to D Minor, the table is exactly the D Minor
default and the override is gone. -/
theorem updateScale_replaces_mappings_witness :
    ((step (step (initState []) (Msg.updateKeyMapping Key.Z ⟨"C", "7"⟩)).1
        (Msg.updateScale "D Minor")).1.key_mappings =
      generateDefaultKeyMappings getScaleMap "D Minor") ∧
    lookupA (step (step (initState []) (Msg.updateKeyMapping Key.Z ⟨"C", "7"⟩)).1
        (Msg.updateScale "D Minor")).1.key_mappings Key.Z ≠ some ⟨"C", "7"⟩ :=
  ⟨(updateScale_replaces_mappings (initState []) Key.Z ⟨"C", "7"⟩ "D Minor"
      (by decide)).1,
    (updateScale_replaces_mappings (initState []) Key.Z ⟨"C", "7"⟩ "D Minor"
      (by decide)).2.1 (by decide) (by decide) (by decide) Key.Z⟩

end PerfectChords
